import Mathlib

/-!
Verification of the proto-client-generator pipeline.

The Go source (cmd/root.go, util/util.go) is shallowly embedded below:
pure predicates become Lean functions; the `Run` workflow of the root
command becomes a trace-producing function over an oracle of stage
outcomes; the file-copying helpers become functions over an explicit
directory/staging state with per-file I/O oracles.
-/

namespace ProtoClientGen

/-! ### Language and service constants (util.go) -/

def LanguageGo         : String := "golang"
def LanguageRuby       : String := "ruby"
def LanguagePython     : String := "python"
def LanguageJava       : String := "java"
def LanguageJavascript : String := "javascript"

def ServiceAudit         : String := "audit"
def ServiceAuthorization : String := "authorization"
def ServiceCatalog       : String := "catalog"
def ServiceCategory      : String := "category"
def ServiceDataspec      : String := "dataspec"
def ServiceExports       : String := "exports"
def ServiceGrants        : String := "grants"
def ServiceJabba         : String := "jabba"
def ServiceOrganizations : String := "organizations"
def ServiceParser        : String := "parser"
def ServiceQuery         : String := "query"
def ServiceReferences    : String := "references"
def ServiceSearch        : String := "search"
def ServiceSources       : String := "sources"
def ServiceTaskrunner    : String := "taskrunner"
def ServiceUploads       : String := "uploads"
def ServiceWarehouses    : String := "warehouses"

/-- `IsValidLanguage` from util.go: the switch over the five language
constants (note the Go constant `LanguageGo` is the string "golang"). -/
def IsValidLanguage (lang : String) : Bool :=
  lang == LanguageGo || lang == LanguageRuby || lang == LanguagePython ||
    lang == LanguageJava || lang == LanguageJavascript

/-- `IsValidPublicService` from util.go: the switch listing the services
with a public protobuf. -/
def IsValidPublicService (s : String) : Bool :=
  s == ServiceAuthorization || s == ServiceCatalog || s == ServiceCategory ||
    s == ServiceDataspec || s == ServiceExports || s == ServiceGrants ||
    s == ServiceOrganizations || s == ServiceQuery || s == ServiceReferences ||
    s == ServiceSearch || s == ServiceSources || s == ServiceUploads ||
    s == ServiceWarehouses

/-- `IsValidPrivateService` from util.go: the switch listing the services
with a private protobuf. -/
def IsValidPrivateService (s : String) : Bool :=
  s == ServiceAudit || s == ServiceJabba || s == ServiceParser ||
    s == ServiceCatalog || s == ServiceCategory || s == ServiceExports ||
    s == ServiceGrants || s == ServiceOrganizations || s == ServiceQuery ||
    s == ServiceReferences || s == ServiceSources || s == ServiceWarehouses ||
    s == ServiceTaskrunner

/-! ### The root command workflow (cmd/root.go, rootCmd.Run)

The `Run` closure is embedded as a function producing the ordered trace of
externally visible operations.  The oracle `StageEnv` fixes the outcome of
each fallible stage.  `log.Fatalf` terminates the process via `os.Exit`,
which does NOT run deferred functions, so the deferred
`CleanUpDirectories` fires only on the normal return; every error path
after workspace creation performs its own explicit cleanup call first. -/

inductive Event where
  | mkdirTempCall
  | mkdirProtoCall
  | cloneCall
  | extractCall
  | generateCall
  | collectCall
  | cleanup
  | fatalExit
deriving DecidableEq, Repr

structure StageEnv where
  mkdirTempOk  : Bool
  mkdirProtoOk : Bool
  cloneOk      : Bool
  copyProtoOk  : Bool
  generateOk   : Bool
  collectOk    : Bool
deriving DecidableEq, Repr

def rootCmdRun (language service : String) (priv : Bool) (env : StageEnv) :
    List Event :=
  if !IsValidLanguage language then [.fatalExit]
  else if !priv && !IsValidPublicService service then [.fatalExit]
  else if priv && !IsValidPrivateService service then [.fatalExit]
  else
    .mkdirTempCall ::
      (if env.mkdirTempOk = false then [.fatalExit]
       else .mkdirProtoCall ::
         (if env.mkdirProtoOk = false then [.cleanup, .fatalExit]
          else .cloneCall ::
            (if env.cloneOk = false then [.cleanup, .fatalExit]
             else .extractCall ::
               (if env.copyProtoOk = false then [.cleanup, .fatalExit]
                else .generateCall ::
                  (if env.generateOk = false then [.cleanup, .fatalExit]
                   else .collectCall ::
                     (if env.collectOk = false then [.cleanup, .fatalExit]
                      else [.cleanup]))))))

/-! ### Filesystem model for the copying helpers (util.go)

A directory listing is a list of `FileEntry`.  Each entry carries its name,
its byte content, and oracles fixing the outcome of the I/O operations the
Go code performs on it: `os.Open` on the source, `os.Create` on the
destination, and `io.Copy`.  `copyFailAt = some k` means the copy fails
after writing the first `k` bytes (Go's `io.Copy` leaves those bytes in
the destination, which `os.Create` has already truncated). -/

structure FileEntry where
  name       : String
  content    : List Nat
  openOk     : Bool := true
  createOk   : Bool := true
  copyFailAt : Option Nat := none
deriving DecidableEq, Repr

/-- `filepath.Ext`: the suffix beginning at the final dot of the name
(empty when the name has no dot). -/
def ext (s : String) : String :=
  let r := s.toList.reverse
  if r.contains '.' then
    String.mk ('.' :: (r.takeWhile (fun c => c ≠ '.')).reverse)
  else ""

/-- A directory's writable state: file name to byte content. -/
abbrev Dir := List (String × List Nat)

/-- Creating/overwriting a file in a directory (`os.Create` + full write):
any previous entry under the name is replaced. -/
def writeFile : Dir → String → List Nat → Dir
  | [], n, c => [(n, c)]
  | p :: d, n, c => if p.1 == n then writeFile d n c else p :: writeFile d n c

/-- Reading a file's content from a directory state. -/
def readFile : Dir → String → Option (List Nat)
  | [], _ => none
  | p :: d, n => if p.1 == n then some p.2 else readFile d n

/-- The cloned source tree exposes its `proto/public` and `proto/private`
directory listings (each may fail to read, as `os.ReadDir` can). -/
structure SourceTree where
  protoPublic  : Except String (List FileEntry)
  protoPrivate : Except String (List FileEntry)
deriving Repr

/-- The loop body of `CopyProtobuf`: skip entries whose extension is not
".proto"; otherwise open the source, create (truncate) the canonical
destination `canonical`, and copy, propagating the first I/O error.  The
returned `Dir` is the staging directory after the call, error or not. -/
def copyProtoLoop (canonical : String) (st : Dir) :
    List FileEntry → Dir × Option String
  | [] => (st, none)
  | f :: fs =>
    if ext f.name ≠ ".proto" then copyProtoLoop canonical st fs
    else if f.openOk = false then
      (st, some "cannot open source protobuf file")
    else if f.createOk = false then
      (st, some "cannot create protobuf file")
    else
      match f.copyFailAt with
      | some k =>
          (writeFile st canonical (f.content.take k),
           some "cannot copy protobuf file")
      | none => copyProtoLoop canonical (writeFile st canonical f.content) fs

/-- `CopyProtobuf` from util.go: select `proto/private` or `proto/public`
by the `priv` flag, read it, then run the copy loop writing every
qualifying file to the single canonical name `service ++ ".proto"`. -/
def CopyProtobuf (service : String) (tree : SourceTree) (priv : Bool)
    (st : Dir) : Dir × Option String :=
  match (if priv then tree.protoPrivate else tree.protoPublic) with
  | .error e => (st, some ("failed to read service protobuf directory: " ++ e))
  | .ok files => copyProtoLoop (service ++ ".proto") st files

/-! ### Compiler invocation (util.go, GenerateCode and the *GenerateCmd helpers) -/

/-- `filepath.Join` for the two-component joins the code performs. -/
def joinPath (a b : String) : String := a ++ "/" ++ b

def goGenerateCmd (service dir : String) : List String :=
  ["protoc", "--twirp_out=paths=source_relative:" ++ dir,
   "--go_out=paths=source_relative:" ++ dir, "--proto_path=" ++ dir,
   joinPath dir (service ++ ".proto")]

def rubyGenerateCmd (service dir : String) : List String :=
  ["protoc", "--proto_path=" ++ dir, "--twirp_ruby_out=" ++ dir,
   "--ruby_out=" ++ dir, joinPath dir (service ++ ".proto")]

def pythonGenerateCmd (service dir : String) : List String :=
  ["protoc", "--proto_path=" ++ dir, "--twirpy_out=" ++ dir,
   "--python_out=" ++ dir, joinPath dir (service ++ ".proto")]

def javascriptGenerateCmd (service dir : String) : List String :=
  ["protoc", "--proto_path=" ++ dir, "--twirp_js_out=" ++ dir,
   "--js_out=import_style=commonjs,binary:" ++ dir,
   joinPath dir (service ++ ".proto")]

/-- Oracle for the subprocess machinery of `GenerateCode`: the two pipe
creations, `Start`, the two `ReadAll`s, and `Wait`. -/
structure ProcEnv where
  stdoutPipeOk : Bool := true
  stderrPipeOk : Bool := true
  startOk      : Bool := true
  stdoutRead   : Except String (List Nat) := .ok []
  stderrRead   : Except String (List Nat) := .ok []
  waitOk       : Bool := true
deriving Repr

/-- A subprocess launch, recorded with its full argument vector. -/
inductive ProcEvent where
  | spawn (args : List String)
deriving DecidableEq, Repr

/-- `GenerateCode` from util.go: the switch selecting the per-language
protoc command (the `default` branch returns the "no command" error), then
pipe setup, `Start` (the only point a subprocess is launched), the output
reads, and `Wait`.  Returns the error outcome and the list of subprocess
launches performed. -/
def GenerateCode (language service dir : String) (env : ProcEnv) :
    Option String × List ProcEvent :=
  match
    (if language == LanguageGo then some (goGenerateCmd service dir)
     else if language == LanguageRuby then some (rubyGenerateCmd service dir)
     else if language == LanguagePython then some (pythonGenerateCmd service dir)
     else if language == LanguageJavascript then
       some (javascriptGenerateCmd service dir)
     else none) with
  | none => (some "no command has been implemented for this language", [])
  | some args =>
    if env.stdoutPipeOk = false then (some "failed to pipe command output", [])
    else if env.stderrPipeOk = false then
      (some "failed to pipe command error output", [])
    else if env.startOk = false then
      (some "failed to start client generator", [])
    else
      match env.stdoutRead with
      | .error e => (some ("failed to read output from command: " ++ e),
                     [.spawn args])
      | .ok _ =>
        match env.stderrRead with
        | .error e => (some ("failed to read error from command: " ++ e),
                       [.spawn args])
        | .ok _ =>
          if env.waitOk = false then
            (some "failed to run generator command", [.spawn args])
          else (none, [.spawn args])

/-! ### Artifact collection (util.go, CopyGeneratedFiles) -/

/-- The loop body of `CopyGeneratedFiles`: skip ".proto" entries, copy
every other entry from staging into the output directory, keyed by its
destination path `base ++ "/" ++ name` (base is `cwd/outputPath`). -/
def copyGeneratedLoop (base : String) (out : Dir) :
    List FileEntry → Dir × Option String
  | [] => (out, none)
  | f :: fs =>
    if ext f.name = ".proto" then copyGeneratedLoop base out fs
    else if f.openOk = false then
      (out, some "failed to open generated file")
    else if f.createOk = false then
      (out, some "failed to create generated file in output")
    else
      match f.copyFailAt with
      | some k =>
          (writeFile out (joinPath base f.name) (f.content.take k),
           some "failed to copy generated file to output")
      | none =>
          copyGeneratedLoop base
            (writeFile out (joinPath base f.name) f.content) fs

/-- `CopyGeneratedFiles` from util.go: resolve the current working
directory, read the staging directory listing, then copy every non-proto
entry into `cwd/outputPath`. -/
def CopyGeneratedFiles (getwdResult : Except String String)
    (stagingList : Except String (List FileEntry)) (outputPath : String)
    (out : Dir) : Dir × Option String :=
  match getwdResult with
  | .error e => (out, some ("cannot locate current working directory: " ++ e))
  | .ok cwd =>
    match stagingList with
    | .error e => (out, some ("failed to read protobuf directory: " ++ e))
    | .ok files => copyGeneratedLoop (joinPath cwd outputPath) out files

/-! ### Workspace teardown (util.go, CleanUpDirectories)

`os.RemoveAll` removes every entry it can under the path and reports the
first failure; on a nonexistent path it returns nil.  An entry that the
operating system refuses to remove is modelled by `removable = false`.
`CleanUpDirectories` calls `log.Fatalf` (process crash) exactly when
`RemoveAll` returned an error. -/

structure FsEntry where
  path      : List String
  removable : Bool := true
deriving DecidableEq, Repr

def isUnder : List String → List String → Bool
  | [], _ => true
  | _ :: _, [] => false
  | d :: ds, p :: ps => d == p && isUnder ds ps

/-- `os.RemoveAll`: drop every removable entry under `dir`; succeed iff no
entry under `dir` resisted removal (in particular, succeed when nothing is
under `dir`). -/
def removeAll (fs : List FsEntry) (dir : List String) :
    List FsEntry × Bool :=
  (fs.filter (fun e => !(isUnder dir e.path && e.removable)),
   fs.all (fun e => !isUnder dir e.path || e.removable))

/-- `CleanUpDirectories`: the resulting filesystem and whether the call
crashed the process (`log.Fatalf` on a `RemoveAll` error). -/
def CleanUpDirectories (fs : List FsEntry) (dir : List String) :
    List FsEntry × Bool :=
  let r := removeAll fs dir
  (r.1, !r.2)

/-! ## Claim theorems -/

/-- C3 counterexample: the claim lists "go" among the accepted values, but
the validator's Go constant `LanguageGo` is the string "golang", so
`IsValidLanguage "go"` is `false` while the claim requires `true`. -/
theorem c3_go_is_rejected :
    IsValidLanguage "go" = false ∧ IsValidLanguage "golang" = true := by
  decide

/-- C3 (amended): `IsValidLanguage` returns true iff the string is one of
golang, ruby, python, javascript, java. -/
theorem IsValidLanguage_iff (lang : String) :
    IsValidLanguage lang = true ↔
      lang = "golang" ∨ lang = "ruby" ∨ lang = "python" ∨
        lang = "javascript" ∨ lang = "java" := by
  simp only [IsValidLanguage, LanguageGo, LanguageRuby, LanguagePython,
    LanguageJava, LanguageJavascript, Bool.or_eq_true, beq_iff_eq]
  tauto

/-- C4: with a valid language, a public (non-private) request is rejected
with an immediate fatal exit exactly when the service fails the
public-capability check, and a private request exactly when it fails the
private-capability check; a service passing the relevant check reaches
workspace creation, so a service in both sets is accepted under either
visibility.  In particular service jabba under public visibility is
rejected before any temporary directory call. -/
theorem rootCmdRun_service_gates (language service : String) (env : StageEnv)
    (hL : IsValidLanguage language = true) :
    (IsValidPublicService service = false →
        rootCmdRun language service false env = [Event.fatalExit])
  ∧ (IsValidPublicService service = true →
        Event.mkdirTempCall ∈ rootCmdRun language service false env)
  ∧ (IsValidPrivateService service = false →
        rootCmdRun language service true env = [Event.fatalExit])
  ∧ (IsValidPrivateService service = true →
        Event.mkdirTempCall ∈ rootCmdRun language service true env)
  ∧ rootCmdRun language ServiceJabba false env = [Event.fatalExit] := by
  have hj : IsValidPublicService ServiceJabba = false := by decide
  refine ⟨fun h => ?_, fun h => ?_, fun h => ?_, fun h => ?_, ?_⟩ <;>
    simp [rootCmdRun, hL, hj, *]

/-- C4 witness: service catalog (in both capability sets) reaches workspace
creation under both visibilities, and jabba under public visibility is
rejected with no temporary-directory call. -/
theorem rootCmdRun_service_gates_witness :
    IsValidLanguage "golang" = true ∧
    (Event.mkdirTempCall ∈
        rootCmdRun "golang" "catalog" false ⟨true, true, true, true, true, true⟩) ∧
    (Event.mkdirTempCall ∈
        rootCmdRun "golang" "catalog" true ⟨true, true, true, true, true, true⟩) ∧
    rootCmdRun "golang" "jabba" false ⟨true, true, true, true, true, true⟩ =
      [Event.fatalExit] := by
  have h := rootCmdRun_service_gates "golang" "catalog"
    ⟨true, true, true, true, true, true⟩ (by decide)
  exact ⟨by decide, h.2.1 (by decide), h.2.2.2.1 (by decide), h.2.2.2.2⟩

/-- C2: a request with an unsupported language, or a service lacking the
requested visibility's definition, produces only the fatal exit — no
filesystem or network event appears in the trace; conversely the
workspace-creation or clone event occurs only when every validation gate
passed. -/
theorem rootCmdRun_validates_before_io (language service : String)
    (priv : Bool) (env : StageEnv) :
    (IsValidLanguage language = false ∨
        (priv = false ∧ IsValidPublicService service = false) ∨
        (priv = true ∧ IsValidPrivateService service = false) →
      rootCmdRun language service priv env = [Event.fatalExit])
  ∧ (Event.mkdirTempCall ∈ rootCmdRun language service priv env ∨
        Event.cloneCall ∈ rootCmdRun language service priv env →
      IsValidLanguage language = true ∧
        (priv = false → IsValidPublicService service = true) ∧
        (priv = true → IsValidPrivateService service = true)) := by
  constructor
  · rintro (h | ⟨hp, h⟩ | ⟨hp, h⟩) <;> simp [rootCmdRun, *]
  · intro hmem
    by_cases hL : IsValidLanguage language
    · cases priv
      · by_cases hS : IsValidPublicService service <;>
          simp_all [rootCmdRun]
      · by_cases hS : IsValidPrivateService service <;>
          simp_all [rootCmdRun]
    · simp_all [rootCmdRun]

/-- C2 witness: an unsupported language is rejected with a bare fatal
exit, before any filesystem or network event. -/
theorem rootCmdRun_validates_before_io_witness :
    rootCmdRun "cobol" "catalog" false ⟨true, true, true, true, true, true⟩ =
      [Event.fatalExit] :=
  (rootCmdRun_validates_before_io "cobol" "catalog" false
      ⟨true, true, true, true, true, true⟩).1 (Or.inl (by decide))

/-- C1: in every run whose workspace creation happens and succeeds,
exactly one cleanup call on the workspace root occurs before the run
ends — on the success path (via the deferred call) and on every failure
path of proto-directory creation, clone, extraction, generation and
collection (via the explicit call preceding the fatal exit). -/
theorem rootCmdRun_cleanup_once (language service : String) (priv : Bool)
    (env : StageEnv)
    (hmk : Event.mkdirTempCall ∈ rootCmdRun language service priv env)
    (hok : env.mkdirTempOk = true) :
    (rootCmdRun language service priv env).count Event.cleanup = 1 := by
  rcases env with ⟨m, mp, c, x, g, co⟩
  cases m
  · exact absurd hok (by simp)
  · by_cases hL : IsValidLanguage language
    · cases priv
      · by_cases hS : IsValidPublicService service
        · cases mp <;> cases c <;> cases x <;> cases g <;> cases co <;>
            simp_all [rootCmdRun, List.count_cons]
        · simp_all [rootCmdRun]
      · by_cases hS : IsValidPrivateService service
        · cases mp <;> cases c <;> cases x <;> cases g <;> cases co <;>
            simp_all [rootCmdRun, List.count_cons]
        · simp_all [rootCmdRun]
    · simp_all [rootCmdRun]

/-- C1 witness: a fully successful run performs exactly one cleanup. -/
theorem rootCmdRun_cleanup_once_witness :
    Event.mkdirTempCall ∈
        rootCmdRun "golang" "catalog" false ⟨true, true, true, true, true, true⟩ ∧
    (rootCmdRun "golang" "catalog" false
        ⟨true, true, true, true, true, true⟩).count Event.cleanup = 1 :=
  ⟨by decide,
   rootCmdRun_cleanup_once "golang" "catalog" false
     ⟨true, true, true, true, true, true⟩ (by decide) rfl⟩

/-! ### Directory-state lemmas -/

theorem readFile_writeFile_same (d : Dir) (n : String) (c : List Nat) :
    readFile (writeFile d n c) n = some c := by
  induction d with
  | nil => simp [writeFile, readFile]
  | cons p d ih =>
    by_cases hp : p.1 = n <;> simp_all [writeFile, readFile]

theorem readFile_writeFile_other (d : Dir) (n m : String) (c : List Nat)
    (h : m ≠ n) : readFile (writeFile d n c) m = readFile d m := by
  induction d with
  | nil =>
    have : ¬n = m := fun hnm => h hnm.symm
    simp [writeFile, readFile, this]
  | cons p d ih =>
    by_cases hp : p.1 = n <;> by_cases hm : p.1 = m <;>
      simp_all [writeFile, readFile]

/-! ### Extraction-loop lemmas -/

theorem copyProtoLoop_ok_other (canonical : String) (files : List FileEntry)
    (st : Dir) (h : (copyProtoLoop canonical st files).2 = none) (n : String)
    (hn : n ≠ canonical) :
    readFile (copyProtoLoop canonical st files).1 n = readFile st n := by
  induction files generalizing st with
  | nil => simp [copyProtoLoop]
  | cons f fs ih =>
    by_cases he : ext f.name = ".proto"
    · cases ho : f.openOk with
      | false => simp [copyProtoLoop, he, ho] at h
      | true =>
        cases hc : f.createOk with
        | false => simp [copyProtoLoop, he, ho, hc] at h
        | true =>
          cases hcf : f.copyFailAt with
          | some k => simp [copyProtoLoop, he, ho, hc, hcf] at h
          | none =>
            have hred : copyProtoLoop canonical st (f :: fs) =
                copyProtoLoop canonical (writeFile st canonical f.content) fs := by
              simp [copyProtoLoop, he, ho, hc, hcf]
            rw [hred] at h ⊢
            rw [ih _ h, readFile_writeFile_other st canonical n f.content hn]
    · have hred : copyProtoLoop canonical st (f :: fs) =
          copyProtoLoop canonical st fs := by
        simp [copyProtoLoop, he]
      rw [hred] at h ⊢
      exact ih st h

theorem copyProtoLoop_ok_canonical (canonical : String)
    (files : List FileEntry) (st : Dir)
    (h : (copyProtoLoop canonical st files).2 = none) :
    readFile (copyProtoLoop canonical st files).1 canonical =
      (match (files.filter (fun f => ext f.name == ".proto")).getLast? with
       | some f => some f.content
       | none => readFile st canonical) := by
  induction files generalizing st with
  | nil => simp [copyProtoLoop]
  | cons f fs ih =>
    by_cases he : ext f.name = ".proto"
    · cases ho : f.openOk with
      | false => simp [copyProtoLoop, he, ho] at h
      | true =>
        cases hc : f.createOk with
        | false => simp [copyProtoLoop, he, ho, hc] at h
        | true =>
          cases hcf : f.copyFailAt with
          | some k => simp [copyProtoLoop, he, ho, hc, hcf] at h
          | none =>
            have hred : copyProtoLoop canonical st (f :: fs) =
                copyProtoLoop canonical (writeFile st canonical f.content) fs := by
              simp [copyProtoLoop, he, ho, hc, hcf]
            rw [hred] at h ⊢
            have ihh := ih (writeFile st canonical f.content) h
            rw [List.filter_cons_of_pos (by simp [he])]
            cases hfs : fs.filter (fun f => ext f.name == ".proto") with
            | nil =>
              simp only [List.getLast?_singleton]
              rw [ihh, hfs]
              simp [readFile_writeFile_same]
            | cons g gs =>
              rw [hfs] at ihh
              rw [List.getLast?_cons_cons]
              rcases hgl : (g :: gs).getLast? with _ | x
              · exact absurd (List.getLast?_eq_none_iff.mp hgl)
                  (List.cons_ne_nil g gs)
              · rw [hgl] at ihh
                exact ihh
    · have hred : copyProtoLoop canonical st (f :: fs) =
          copyProtoLoop canonical st fs := by
        simp [copyProtoLoop, he]
      rw [hred] at h ⊢
      rw [List.filter_cons_of_neg (by simp [he])]
      exact ih st h

/-- C5: on a successful extraction, only entries of the selected source
directory whose names end in ".proto" contribute to staging: the canonical
file `service ++ ".proto"` holds the content of the last qualifying entry
in enumeration order (and is untouched when there is none), while every
other staging name — e.g. "README.md" — keeps its previous state, so
non-matching files are never staged. -/
theorem CopyProtobuf_last_proto_wins (service : String) (tree : SourceTree)
    (priv : Bool) (st : Dir) (files : List FileEntry)
    (hread : (if priv then tree.protoPrivate else tree.protoPublic) = .ok files)
    (hok : (CopyProtobuf service tree priv st).2 = none) :
    (∀ n, n ≠ service ++ ".proto" →
        readFile (CopyProtobuf service tree priv st).1 n = readFile st n)
  ∧ readFile (CopyProtobuf service tree priv st).1 (service ++ ".proto") =
      (match (files.filter (fun f => ext f.name == ".proto")).getLast? with
       | some f => some f.content
       | none => readFile st (service ++ ".proto")) := by
  unfold CopyProtobuf at hok ⊢
  rw [hread] at hok ⊢
  exact ⟨fun n hn => copyProtoLoop_ok_other _ _ _ hok n hn,
    copyProtoLoop_ok_canonical _ _ _ hok⟩

/-- Concrete directory listing for the extraction witness: a README next
to two protobuf definitions. -/
def exFiles : List FileEntry :=
  [⟨"README.md", [9], true, true, none⟩,
   ⟨"a.proto", [1], true, true, none⟩,
   ⟨"b.proto", [2], true, true, none⟩]

/-- Concrete source tree for the extraction witness. -/
def exTree : SourceTree := ⟨.ok exFiles, .ok []⟩

/-- C5 witness: with a README and two proto files, the README is never
staged and the canonical file holds the last proto file's content. -/
theorem CopyProtobuf_last_proto_wins_witness :
    readFile (CopyProtobuf "catalog" exTree false []).1 "README.md" =
        readFile [] "README.md"
    ∧ readFile (CopyProtobuf "catalog" exTree false []).1 ("catalog" ++ ".proto") =
        (match (exFiles.filter (fun f => ext f.name == ".proto")).getLast? with
         | some f => some f.content
         | none => readFile [] ("catalog" ++ ".proto")) :=
  ⟨(CopyProtobuf_last_proto_wins "catalog" exTree false [] exFiles rfl
      (by decide)).1 "README.md" (by decide),
   (CopyProtobuf_last_proto_wins "catalog" exTree false [] exFiles rfl
      (by decide)).2⟩

/-- Helper for C8: with no mid-copy failure among the entries, the
canonical staging file after the loop — error or not — is either the
initial one or the full content of some qualifying entry. -/
theorem copyProtoLoop_no_partial (canonical : String) (files : List FileEntry)
    (st : Dir) (hnc : ∀ f ∈ files, f.copyFailAt = none) :
    readFile (copyProtoLoop canonical st files).1 canonical =
        readFile st canonical
    ∨ ∃ f ∈ files, ext f.name = ".proto" ∧
        readFile (copyProtoLoop canonical st files).1 canonical =
          some f.content := by
  induction files generalizing st with
  | nil => left; simp [copyProtoLoop]
  | cons f fs ih =>
    by_cases he : ext f.name = ".proto"
    · cases ho : f.openOk with
      | false => left; simp [copyProtoLoop, he, ho]
      | true =>
        cases hc : f.createOk with
        | false => left; simp [copyProtoLoop, he, ho, hc]
        | true =>
          have hcf : f.copyFailAt = none := hnc f (by simp)
          have hred : copyProtoLoop canonical st (f :: fs) =
              copyProtoLoop canonical (writeFile st canonical f.content) fs := by
            simp [copyProtoLoop, he, ho, hc, hcf]
          rw [hred]
          rcases ih (writeFile st canonical f.content)
              (fun g hg => hnc g (by simp [hg])) with h1 | ⟨g, hg, hge, hgc⟩
          · right
            exact ⟨f, by simp, he, by rw [h1, readFile_writeFile_same]⟩
          · right; exact ⟨g, by simp [hg], hge, hgc⟩
    · have hred : copyProtoLoop canonical st (f :: fs) =
          copyProtoLoop canonical st fs := by
        simp [copyProtoLoop, he]
      rw [hred]
      rcases ih st (fun g hg => hnc g (by simp [hg])) with h1 | ⟨g, hg, hge, hgc⟩
      · left; exact h1
      · right; exact ⟨g, by simp [hg], hge, hgc⟩

/-- C8 counterexample: a mid-copy failure (after one byte of a two-byte
file) returns an error yet leaves the canonical file visible in staging
with partial content `[1]` — neither absent nor the full `[1, 2]`. -/
theorem CopyProtobuf_copy_failure_leaves_partial :
    ((CopyProtobuf "svc"
        ⟨.ok [⟨"a.proto", [1, 2], true, true, some 1⟩], .ok []⟩
        false []).2).isSome = true
    ∧ readFile (CopyProtobuf "svc"
        ⟨.ok [⟨"a.proto", [1, 2], true, true, some 1⟩], .ok []⟩
        false []).1 "svc.proto" = some [1]
    ∧ some [1] ≠ (none : Option (List Nat)) ∧ [1] ≠ [1, 2] := by
  decide

/-- C8 (amended): in every run where no mid-copy failure occurs —
directory-read failure, file-open failure, file-create failure, or
success — the canonical staging file is never half-written: it is either
unchanged or the full content of a qualifying entry.  (A mid-copy failure
can leave a partial file, since the code truncates and writes the
destination directly.) -/
theorem CopyProtobuf_no_partial_without_copy_failure (service : String)
    (tree : SourceTree) (priv : Bool) (st : Dir)
    (hnc : ∀ files,
      (if priv then tree.protoPrivate else tree.protoPublic) = .ok files →
      ∀ f ∈ files, f.copyFailAt = none) :
    readFile (CopyProtobuf service tree priv st).1 (service ++ ".proto") =
        readFile st (service ++ ".proto")
    ∨ ∃ files,
        (if priv then tree.protoPrivate else tree.protoPublic) = .ok files ∧
        ∃ f ∈ files, ext f.name = ".proto" ∧
          readFile (CopyProtobuf service tree priv st).1 (service ++ ".proto") =
            some f.content := by
  rcases hr : (if priv then tree.protoPrivate else tree.protoPublic)
    with e | files
  · left
    unfold CopyProtobuf
    rw [hr]
  · unfold CopyProtobuf
    rw [hr]
    rcases copyProtoLoop_no_partial (service ++ ".proto") files st
        (hnc files hr) with h1 | ⟨f, hf, hfe, hfc⟩
    · left; exact h1
    · right; exact ⟨files, rfl, f, hf, hfe, hfc⟩

/-- C8 witness: an open failure on the only proto file aborts extraction
with the staging state untouched or holding a full copy. -/
theorem CopyProtobuf_no_partial_witness :
    readFile (CopyProtobuf "svc"
        ⟨.ok [⟨"a.proto", [1, 2], false, true, none⟩], .ok []⟩
        false []).1 ("svc" ++ ".proto") = readFile [] ("svc" ++ ".proto")
    ∨ ∃ files,
        (if false then
            (⟨.ok [⟨"a.proto", [1, 2], false, true, none⟩], .ok []⟩ :
              SourceTree).protoPrivate
          else
            (⟨.ok [⟨"a.proto", [1, 2], false, true, none⟩], .ok []⟩ :
              SourceTree).protoPublic) = .ok files ∧
        ∃ f ∈ files, ext f.name = ".proto" ∧
          readFile (CopyProtobuf "svc"
              ⟨.ok [⟨"a.proto", [1, 2], false, true, none⟩], .ok []⟩
              false []).1 ("svc" ++ ".proto") = some f.content :=
  CopyProtobuf_no_partial_without_copy_failure "svc"
    ⟨.ok [⟨"a.proto", [1, 2], false, true, none⟩], .ok []⟩ false []
    (by intro files h; cases h; decide)

/-- C7: for every language without a compiler-invocation profile — any
string other than golang, ruby, python, javascript, which includes "java"
— `GenerateCode` returns the "no command has been implemented" error and
its event list is empty: no subprocess is ever launched. -/
theorem GenerateCode_no_profile (language service dir : String) (env : ProcEnv)
    (h : language ≠ LanguageGo ∧ language ≠ LanguageRuby ∧
      language ≠ LanguagePython ∧ language ≠ LanguageJavascript) :
    GenerateCode language service dir env =
      (some "no command has been implemented for this language", []) := by
  obtain ⟨h1, h2, h3, h4⟩ := h
  unfold GenerateCode
  simp [h1, h2, h3, h4]

/-- C7 witness: a java request — accepted by the language validator — is
rejected by the generation stage with no subprocess launch. -/
theorem GenerateCode_no_profile_witness :
    IsValidLanguage "java" = true ∧
    GenerateCode "java" "catalog" "/tmp/proto"
        ⟨true, true, true, .ok [], .ok [], true⟩ =
      (some "no command has been implemented for this language", []) :=
  ⟨by decide,
   GenerateCode_no_profile "java" "catalog" "/tmp/proto"
     ⟨true, true, true, .ok [], .ok [], true⟩
     ⟨by decide, by decide, by decide, by decide⟩⟩

/-- Helper for C10: when no entry of the read listing ends in ".proto",
the extraction loop finishes without error and without touching staging. -/
theorem copyProtoLoop_no_proto_entries (canonical : String)
    (files : List FileEntry) (st : Dir)
    (hnp : ∀ f ∈ files, ext f.name ≠ ".proto") :
    copyProtoLoop canonical st files = (st, none) := by
  induction files with
  | nil => simp [copyProtoLoop]
  | cons f fs ih =>
    have he : ¬ext f.name = ".proto" := hnp f (by simp)
    have hred : copyProtoLoop canonical st (f :: fs) =
        copyProtoLoop canonical st fs := by
      simp [copyProtoLoop, he]
    rw [hred]
    exact ih (fun g hg => hnp g (by simp [hg]))

/-- Helper for C10: once the pipes and `Start` succeed, the generation
stage for the go profile launches protoc with the full argument vector,
whatever the canonical input file contains (or whether it exists). -/
theorem GenerateCode_go_spawns (service dir : String) (env : ProcEnv)
    (h1 : env.stdoutPipeOk = true) (h2 : env.stderrPipeOk = true)
    (h3 : env.startOk = true) :
    (GenerateCode LanguageGo service dir env).2 =
      [ProcEvent.spawn (goGenerateCmd service dir)] := by
  rcases env with ⟨so, se, stk, sr, er, w⟩
  simp only at h1 h2 h3
  subst h1 h2 h3
  unfold GenerateCode
  rcases sr with e | v <;> rcases er with e' | v' <;> cases w <;> simp

/-- C10: a readable source directory with no ".proto" entry makes
extraction return success with staging untouched — the missing interface
definition is not detected there — while the later generation stage (with
working pipes and a successful start) still launches the compiler on the
canonical path `dir/service.proto`, where the absence first surfaces. -/
theorem CopyProtobuf_empty_dir_silent (service dir : String)
    (tree : SourceTree) (priv : Bool) (st : Dir) (files : List FileEntry)
    (env : ProcEnv)
    (hread : (if priv then tree.protoPrivate else tree.protoPublic) = .ok files)
    (hnp : ∀ f ∈ files, ext f.name ≠ ".proto")
    (h1 : env.stdoutPipeOk = true) (h2 : env.stderrPipeOk = true)
    (h3 : env.startOk = true) :
    CopyProtobuf service tree priv st = (st, none)
    ∧ (GenerateCode LanguageGo service dir env).2 =
        [ProcEvent.spawn (goGenerateCmd service dir)]
    ∧ joinPath dir (service ++ ".proto") ∈ goGenerateCmd service dir := by
  refine ⟨?_, GenerateCode_go_spawns service dir env h1 h2 h3, by simp [goGenerateCmd]⟩
  unfold CopyProtobuf
  rw [hread]
  exact copyProtoLoop_no_proto_entries _ _ _ hnp

/-- C10 witness: a source directory holding only a README yields a
successful, empty extraction, and generation still spawns protoc on the
nonexistent canonical input. -/
theorem CopyProtobuf_empty_dir_silent_witness :
    CopyProtobuf "svc" ⟨.ok [⟨"README.md", [9], true, true, none⟩], .ok []⟩
        false [] = ([], none)
    ∧ (GenerateCode LanguageGo "svc" "/w/proto"
        ⟨true, true, true, .ok [], .ok [], true⟩).2 =
        [ProcEvent.spawn (goGenerateCmd "svc" "/w/proto")]
    ∧ joinPath "/w/proto" ("svc" ++ ".proto") ∈ goGenerateCmd "svc" "/w/proto" :=
  CopyProtobuf_empty_dir_silent "svc" "/w/proto"
    ⟨.ok [⟨"README.md", [9], true, true, none⟩], .ok []⟩ false []
    [⟨"README.md", [9], true, true, none⟩]
    ⟨true, true, true, .ok [], .ok [], true⟩
    rfl (by decide) rfl rfl rfl

/-! ### Collection lemmas -/

theorem stringAppend_cancel_left {a b c : String} (h : a ++ b = a ++ c) :
    b = c := by
  have hd := congrArg String.data h
  simp only [String.data_append] at hd
  have h2 := List.append_cancel_left hd
  cases b; cases c
  exact congrArg String.mk h2

theorem joinPath_right_inj {a b c : String} (h : joinPath a b = joinPath a c) :
    b = c := by
  unfold joinPath at h
  exact stringAppend_cancel_left (stringAppend_cancel_left
    (String.append_assoc a "/" b ▸ String.append_assoc a "/" c ▸ h))

/-- The collection loop writes only destination paths of non-proto
entries: any other output path keeps its previous state, error or not. -/
theorem copyGeneratedLoop_untouched (base : String) (files : List FileEntry)
    (out : Dir) (n : String)
    (hn : ∀ f ∈ files, ext f.name ≠ ".proto" → joinPath base f.name ≠ n) :
    readFile (copyGeneratedLoop base out files).1 n = readFile out n := by
  induction files generalizing out with
  | nil => simp [copyGeneratedLoop]
  | cons f fs ih =>
    by_cases he : ext f.name = ".proto"
    · have hred : copyGeneratedLoop base out (f :: fs) =
          copyGeneratedLoop base out fs := by
        simp [copyGeneratedLoop, he]
      rw [hred]
      exact ih out (fun g hg => hn g (by simp [hg]))
    · have hkey : joinPath base f.name ≠ n := hn f (by simp) he
      cases ho : f.openOk with
      | false => simp [copyGeneratedLoop, he, ho]
      | true =>
        cases hc : f.createOk with
        | false => simp [copyGeneratedLoop, he, ho, hc]
        | true =>
          cases hcf : f.copyFailAt with
          | some k =>
            have hred : copyGeneratedLoop base out (f :: fs) =
                (writeFile out (joinPath base f.name) (f.content.take k),
                 some "failed to copy generated file to output") := by
              simp [copyGeneratedLoop, he, ho, hc, hcf]
            rw [hred]
            exact readFile_writeFile_other out (joinPath base f.name) n
              (f.content.take k) hkey.symm
          | none =>
            have hred : copyGeneratedLoop base out (f :: fs) =
                copyGeneratedLoop base
                  (writeFile out (joinPath base f.name) f.content) fs := by
              simp [copyGeneratedLoop, he, ho, hc, hcf]
            rw [hred]
            rw [ih _ (fun g hg => hn g (by simp [hg]))]
            exact readFile_writeFile_other out (joinPath base f.name) n
              f.content hkey.symm

/-- With distinct entry names and no I/O failure, the collection loop
succeeds and delivers every non-proto entry's content at its destination
path. -/
theorem copyGeneratedLoop_collects (base : String) (files : List FileEntry)
    (out : Dir) (hnodup : (files.map FileEntry.name).Nodup)
    (hok : ∀ f ∈ files,
      f.openOk = true ∧ f.createOk = true ∧ f.copyFailAt = none) :
    (copyGeneratedLoop base out files).2 = none
    ∧ ∀ f ∈ files, ext f.name ≠ ".proto" →
        readFile (copyGeneratedLoop base out files).1 (joinPath base f.name) =
          some f.content := by
  induction files generalizing out with
  | nil => simp [copyGeneratedLoop]
  | cons g gs ih =>
    obtain ⟨hgo, hgc, hgf⟩ := hok g (by simp)
    rw [List.map_cons, List.nodup_cons] at hnodup
    obtain ⟨hnotin, hnd⟩ := hnodup
    by_cases he : ext g.name = ".proto"
    · have hred : copyGeneratedLoop base out (g :: gs) =
          copyGeneratedLoop base out gs := by
        simp [copyGeneratedLoop, he]
      rw [hred]
      obtain ⟨ih1, ih2⟩ := ih out hnd (fun f hf => hok f (by simp [hf]))
      refine ⟨ih1, ?_⟩
      intro f hf hfe
      rcases List.mem_cons.mp hf with rfl | hf'
      · exact absurd he hfe
      · exact ih2 f hf' hfe
    · have hred : copyGeneratedLoop base out (g :: gs) =
          copyGeneratedLoop base
            (writeFile out (joinPath base g.name) g.content) gs := by
        simp [copyGeneratedLoop, he, hgo, hgc, hgf]
      rw [hred]
      obtain ⟨ih1, ih2⟩ := ih (writeFile out (joinPath base g.name) g.content)
        hnd (fun f hf => hok f (by simp [hf]))
      refine ⟨ih1, ?_⟩
      intro f hf hfe
      rcases List.mem_cons.mp hf with rfl | hf'
      · rw [copyGeneratedLoop_untouched base gs _ (joinPath base f.name)
          (fun h hh hhe heq =>
            hnotin (joinPath_right_inj heq ▸ List.mem_map_of_mem _ hh))]
        exact readFile_writeFile_same out (joinPath base f.name) f.content
      · exact ih2 f hf' hfe

/-- C6: with working I/O and distinct staged names, collection skips every
".proto" entry and copies every other staged entry byte-for-byte to its
destination under `cwd/outputPath`: the destination's content equals the
staged source's content, and any destination path not belonging to a
non-proto entry — in particular the canonical interface file's — keeps
its previous state, so the canonical file never appears in the output. -/
theorem CopyGeneratedFiles_collects (cwd outputPath : String)
    (files : List FileEntry) (out : Dir)
    (hnodup : (files.map FileEntry.name).Nodup)
    (hok : ∀ f ∈ files,
      f.openOk = true ∧ f.createOk = true ∧ f.copyFailAt = none) :
    (CopyGeneratedFiles (.ok cwd) (.ok files) outputPath out).2 = none
    ∧ (∀ f ∈ files, ext f.name ≠ ".proto" →
        readFile (CopyGeneratedFiles (.ok cwd) (.ok files) outputPath out).1
          (joinPath (joinPath cwd outputPath) f.name) = some f.content)
    ∧ (∀ n, (∀ f ∈ files, ext f.name ≠ ".proto" →
          joinPath (joinPath cwd outputPath) f.name ≠ n) →
        readFile (CopyGeneratedFiles (.ok cwd) (.ok files) outputPath out).1 n
          = readFile out n) := by
  obtain ⟨h1, h2⟩ :=
    copyGeneratedLoop_collects (joinPath cwd outputPath) files out hnodup hok
  exact ⟨h1, h2,
    fun n hn => copyGeneratedLoop_untouched (joinPath cwd outputPath)
      files out n hn⟩

/-- Concrete staging listing for the collection witness: the canonical
definition next to one generated file. -/
def colFiles : List FileEntry :=
  [⟨"catalog.proto", [7], true, true, none⟩,
   ⟨"catalog.pb.go", [1, 2], true, true, none⟩]

/-- C6 witness: the generated file reaches the output byte-for-byte and
the canonical proto file does not appear there. -/
theorem CopyGeneratedFiles_collects_witness :
    (CopyGeneratedFiles (.ok "/w") (.ok colFiles) "o" []).2 = none
    ∧ readFile (CopyGeneratedFiles (.ok "/w") (.ok colFiles) "o" []).1
        (joinPath (joinPath "/w" "o") "catalog.pb.go") = some [1, 2]
    ∧ readFile (CopyGeneratedFiles (.ok "/w") (.ok colFiles) "o" []).1
        (joinPath (joinPath "/w" "o") "catalog.proto") =
        readFile [] (joinPath (joinPath "/w" "o") "catalog.proto") := by
  have h := CopyGeneratedFiles_collects "/w" "o" colFiles []
    (by decide) (by decide)
  exact ⟨h.1,
    h.2.1 ⟨"catalog.pb.go", [1, 2], true, true, none⟩ (by decide) (by decide),
    h.2.2 (joinPath (joinPath "/w" "o") "catalog.proto") (by decide)⟩

/-- C9: on an already-removed path (no entry under `dir`) or a
partially-created one whose entries the operating system can remove,
`CleanUpDirectories` does not crash the caller; it removes everything
under the path, and a second call on the same path behaves exactly as the
first (same filesystem, same outcome). -/
theorem CleanUpDirectories_idempotent_safe (fs : List FsEntry)
    (dir : List String)
    (h : ∀ e ∈ fs, isUnder dir e.path = true → e.removable = true) :
    (CleanUpDirectories fs dir).2 = false
    ∧ (∀ e ∈ (CleanUpDirectories fs dir).1, isUnder dir e.path = false)
    ∧ CleanUpDirectories (CleanUpDirectories fs dir).1 dir =
        CleanUpDirectories fs dir := by
  have hall : fs.all (fun e => !isUnder dir e.path || e.removable) = true := by
    rw [List.all_eq_true]
    intro e he
    cases hb : isUnder dir e.path
    · simp
    · simp [h e he hb]
  have hsub : ∀ e ∈ fs.filter (fun e => !(isUnder dir e.path && e.removable)),
      isUnder dir e.path = false := by
    intro e he
    rw [List.mem_filter] at he
    obtain ⟨hef, hp⟩ := he
    cases hb : isUnder dir e.path
    · rfl
    · rw [hb, h e hef hb] at hp
      simp at hp
  refine ⟨?_, ?_, ?_⟩
  · simp [CleanUpDirectories, removeAll, hall]
  · intro e he
    simp only [CleanUpDirectories, removeAll] at he
    exact hsub e he
  · simp only [CleanUpDirectories, removeAll]
    have e1 : (fs.filter (fun e => !(isUnder dir e.path && e.removable))).filter
        (fun e => !(isUnder dir e.path && e.removable)) =
        fs.filter (fun e => !(isUnder dir e.path && e.removable)) := by
      apply List.filter_eq_self.mpr
      intro e he
      simp [hsub e he]
    have e2 : (fs.filter (fun e => !(isUnder dir e.path && e.removable))).all
        (fun e => !isUnder dir e.path || e.removable) = true := by
      rw [List.all_eq_true]
      intro e he
      simp [hsub e he]
    rw [e1, e2, hall]

/-- C9 witness: a workspace with one removable entry, alongside an
unrelated unremovable path, is cleaned without crashing, and a second
cleanup of the same path is identical to the first. -/
theorem CleanUpDirectories_idempotent_safe_witness :
    (CleanUpDirectories
        [⟨["tmp", "ws", "a"], true⟩, ⟨["home", "x"], false⟩]
        ["tmp", "ws"]).2 = false
    ∧ (∀ e ∈ (CleanUpDirectories
          [⟨["tmp", "ws", "a"], true⟩, ⟨["home", "x"], false⟩]
          ["tmp", "ws"]).1, isUnder ["tmp", "ws"] e.path = false)
    ∧ CleanUpDirectories
        (CleanUpDirectories
            [⟨["tmp", "ws", "a"], true⟩, ⟨["home", "x"], false⟩]
            ["tmp", "ws"]).1 ["tmp", "ws"] =
        CleanUpDirectories
          [⟨["tmp", "ws", "a"], true⟩, ⟨["home", "x"], false⟩]
          ["tmp", "ws"] :=
  CleanUpDirectories_idempotent_safe
    [⟨["tmp", "ws", "a"], true⟩, ⟨["home", "x"], false⟩]
    ["tmp", "ws"] (by decide)

end ProtoClientGen
